import Mathlib

/-!
Verification of the progress-synchronization core of the wordmate backend
(src/backend/app/services/progress_service.py together with the pydantic
schemas in src/backend/app/schemas/__init__.py and the SQLAlchemy models in
src/backend/app/models/database.py).

Modelling conventions:
- decimal columns (mastery_level, ease_factor, accuracy) are rationals;
- dates and timestamps are integers (a date is a day number such as 20240101,
  a timestamp is any integer instant);
- a per-user slice of the user_words table is a list of UserWord rows; the
  primary key of a row is the pair (user_id, word_id);
- the sqlalchemy session of the service is created with autoflush=False
  (src/backend/app/db/database.py), so rows added with db.add during a sync
  batch are invisible to later queries of the same batch, while in-place
  attribute updates of rows already loaded are visible through the identity
  map; the state of a running batch therefore separates the visible store
  from the invisible pending inserts;
- db.commit at the end of sync_user_progress fails (IntegrityError, caught
  by the enclosing handler which rolls back and re-raises) exactly when the
  pending inserts violate the primary-key uniqueness of user_words; the
  whole operation is modelled as Option, none being operation failure;
- the per-entry try/except of the sync loop is modelled by a failure oracle
  telling which entries raise; an entry that raises is skipped whole;
- the write path of the sync loop stores Decimal(str(value)) for the
  incoming float mastery_level and ease_factor (lines 246-248 and 260-262),
  and the stored decimal generally differs from the float value (the float
  0.3 is stored as exactly 3/10, which the exact comparison of line 236
  then distinguishes from the float); the value change of this round-trip
  is modelled by an explicit map dec on rationals passed to the write path,
  decId being its restriction to round-trip-exact values; comparisons stay
  exact value comparisons, as in Python.
-/

namespace WordMate

/-- A row of the user_words table (class UserWord in
src/backend/app/models/database.py). -/
structure UserWord where
  user_id : String
  word_id : String
  mastery_level : ℚ
  repetitions : ℤ
  ease_factor : ℚ
  last_review : Option ℤ
  next_review : Option ℤ
  seen_count : ℤ
  correct_count : ℤ
  updated_at : ℤ
  deriving DecidableEq

/-- A validated client word entry (pydantic schema WordProgressBase in
src/backend/app/schemas/__init__.py). -/
structure WordProgressBase where
  word_id : String
  mastery_level : ℚ
  repetitions : ℤ
  ease_factor : ℚ
  last_review : Option ℤ
  next_review : Option ℤ
  seen_count : ℤ
  correct_count : ℤ
  deriving DecidableEq

/-- The bounds enforced by the pydantic Field validators of WordProgressBase:
mastery_level in [0, 5], repetitions ge 0, ease_factor in [1.3, 5],
seen_count ge 0, correct_count ge 0. -/
def WordProgressBase.validated (w : WordProgressBase) : Prop :=
  0 ≤ w.mastery_level ∧ w.mastery_level ≤ 5 ∧
  0 ≤ w.repetitions ∧
  (13 : ℚ)/10 ≤ w.ease_factor ∧ w.ease_factor ≤ 5 ∧
  0 ≤ w.seen_count ∧ 0 ≤ w.correct_count

/-- The conflict dict built by sync_user_progress
(src/backend/app/services/progress_service.py lines 238-243). -/
structure SyncConflict where
  word_id : String
  server_mastery : ℚ
  client_mastery : ℚ
  resolution : String
  deriving DecidableEq

/-- The denormalized stats columns of the users table together with its
updated_at timestamp (class User in src/backend/app/models/database.py). -/
structure UserStats where
  total_words_learned : ℤ
  current_streak : ℤ
  max_streak : ℤ
  last_active_date : Option ℤ
  updated_at : ℤ
  deriving DecidableEq

/-- The raw stats dict of a sync or trial payload. Each field is none when
the key is absent from the dict. last_active_date is only read by the trial
path: the outer option is key presence (with a truthy value), the inner
option is the result of ProgressService._parse_date, which returns None on
an unparseable string. -/
structure StatsPayload where
  total_words_learned : Option ℤ
  current_streak : Option ℤ
  max_streak : Option ℤ
  last_active_date : Option (Option ℤ)
  deriving DecidableEq

/-- The body of ProgressSyncData: a list of validated word entries plus the
raw stats dict; stats = none models an empty (falsy) stats dict. -/
structure SyncData where
  words : List WordProgressBase
  stats : Option StatsPayload
  deriving DecidableEq

/-- Primary key of a user_words row. -/
def wkey (r : UserWord) : String × String := (r.user_id, r.word_id)

/-- The filter user_id == uid AND word_id == wid of the row queries. -/
def matchKey (uid wid : String) (x : UserWord) : Bool :=
  x.user_id == uid && x.word_id == wid

/-- The lookup db.query(UserWord).filter(user_id == uid, word_id == wid).first()
over the visible rows. -/
def findWord (store : List UserWord) (uid wid : String) : Option UserWord :=
  store.find? (matchKey uid wid)

/-- In-place overwrite, through the identity map, of every loaded row whose
key is (uid, wid). -/
def setWord (store : List UserWord) (uid wid : String) (r : UserWord) : List UserWord :=
  store.map (fun x => if matchKey uid wid x then r else x)

/-- The row written for an entry, stamped with the merge time (the update
branch of sync_user_progress lines 246-253; the create branch lines 257-267
produces the same values, updated_at being filled by the column server
default at insert time). The decimal columns store
Decimal(str(word_data.mastery_level)) and Decimal(str(word_data.ease_factor)),
whose value change relative to the incoming float is the map dec; the
integer and date columns are assigned unchanged. -/
def recordOf (dec : ℚ → ℚ) (uid : String) (now : ℤ) (w : WordProgressBase) : UserWord :=
  { user_id := uid
    word_id := w.word_id
    mastery_level := dec w.mastery_level
    repetitions := w.repetitions
    ease_factor := dec w.ease_factor
    last_review := w.last_review
    next_review := w.next_review
    seen_count := w.seen_count
    correct_count := w.correct_count
    updated_at := now }

/-- The identity round-trip: the Decimal(str(f)) write modelled on batches
whose incoming values it leaves unchanged, which holds exactly for floats
whose shortest decimal representation is their exact value, such as 2.5,
0.25 and every integer; the float 0.3 is not such a value, since
Decimal(str(0.3)) holds exactly 3/10 while the float does not. -/
def decId : ℚ → ℚ := fun x => x

/-- The mutable state of the word loop of sync_user_progress: visible rows,
pending (unflushed) inserts, accumulated conflicts and updated_words. -/
structure SyncLoopState where
  store : List UserWord
  pending : List UserWord
  conflicts : List SyncConflict
  updated_words : Nat
  deriving DecidableEq

/-- One iteration of the word loop of sync_user_progress (lines 227-274).
fails is the failure oracle: fails w = true means processing the entry
raises, so the except branch skips it whole. -/
def syncStep (dec : ℚ → ℚ) (fails : WordProgressBase → Bool) (uid : String) (now : ℤ)
    (s : SyncLoopState) (w : WordProgressBase) : SyncLoopState :=
  if fails w then s
  else
    match findWord s.store uid w.word_id with
    | some ex =>
        let cs :=
          if ex.mastery_level ≠ w.mastery_level ∨ ex.repetitions ≠ w.repetitions then
            s.conflicts ++ [{ word_id := w.word_id
                              server_mastery := ex.mastery_level
                              client_mastery := w.mastery_level
                              resolution := "client_wins" }]
          else s.conflicts
        { store := setWord s.store uid w.word_id (recordOf dec uid now w)
          pending := s.pending
          conflicts := cs
          updated_words := s.updated_words + 1 }
    | none =>
        { store := s.store
          pending := s.pending ++ [recordOf dec uid now w]
          conflicts := s.conflicts
          updated_words := s.updated_words + 1 }

/-- The whole word loop of sync_user_progress. -/
def syncWords (dec : ℚ → ℚ) (fails : WordProgressBase → Bool) (uid : String) (now : ℤ)
    (store : List UserWord) (ws : List WordProgressBase) : SyncLoopState :=
  ws.foldl (syncStep dec fails uid now) { store := store, pending := [], conflicts := [], updated_words := 0 }

/-- The oracle of a run in which no entry raises. -/
def noFail : WordProgressBase → Bool := fun _ => false

/-- The stats update of sync_user_progress (lines 278-283): overwrite with
fallback to the existing value, max-merge of max_streak, last_active_date
stamped with the server current date, updated_at with the merge time. -/
def syncStatsUpdate (today now : ℤ) (u : UserStats) (p : StatsPayload) : UserStats :=
  { total_words_learned := p.total_words_learned.getD u.total_words_learned
    current_streak := p.current_streak.getD u.current_streak
    max_streak := max u.max_streak (p.max_streak.getD 0)
    last_active_date := some today
    updated_at := now }

/-- ProgressService._update_user_stats (lines 119-135), the stats step of the
trial import: direct overwrite with default 0, and last_active_date parsed
from the payload when the key is present and truthy. -/
def update_user_stats (u : UserStats) (p : StatsPayload) : UserStats :=
  { total_words_learned := p.total_words_learned.getD 0
    current_streak := p.current_streak.getD 0
    max_streak := p.max_streak.getD 0
    last_active_date :=
      match p.last_active_date with
      | some v => v
      | none => u.last_active_date
    updated_at := u.updated_at }

/-- The result dict of sync_user_progress together with the state it
commits. -/
structure SyncOutcome where
  store : List UserWord
  stats : UserStats
  updated_words : Nat
  conflicts : List SyncConflict
  sync_timestamp : ℤ
  deriving DecidableEq

/-- The guard if user and sync_data.stats of lines 277-283: the stats
update runs only when the stats dict is truthy (some). -/
def statsAfter (today now : ℤ) (u : UserStats) : Option StatsPayload → UserStats
  | some p => syncStatsUpdate today now u p
  | none => u

/-- ProgressService.sync_user_progress (lines 205-295) for a pre-validated
account: run the word loop, apply the stats update when the stats dict is
truthy, then commit; the commit raises IntegrityError exactly when the
pending inserts break the primary-key uniqueness of user_words, in which
case the whole batch is rolled back (none). -/
def sync_user_progress (dec : ℚ → ℚ) (fails : WordProgressBase → Bool) (uid : String) (now today : ℤ)
    (store : List UserWord) (userStats : UserStats) (d : SyncData) : Option SyncOutcome :=
  let s := syncWords dec fails uid now store d.words
  let st := statsAfter today now userStats d.stats
  if ((s.store ++ s.pending).map wkey).Nodup then
    some { store := s.store ++ s.pending
           stats := st
           updated_words := s.updated_words
           conflicts := s.conflicts
           sync_timestamp := now }
  else none

/-- Date comparison of the due filter: next_review IS NULL OR
next_review <= today. -/
def dueDate (today : ℤ) : Option ℤ → Bool
  | none => true
  | some d => decide (d ≤ today)

/-- The WHERE clause of get_words_for_review (lines 180-185):
mastery_level < 4.0 AND (next_review IS NULL OR next_review <= today). -/
def dueForReview (today : ℤ) (r : UserWord) : Bool :=
  decide (r.mastery_level < 4) && dueDate today r.next_review

/-- Comparison realised by ORDER BY mastery_level ASC, last_review ASC on
the Date column last_review: under MySQL, NULL sorts before every date in
ascending order. -/
def nullsFirstLE : Option ℤ → Option ℤ → Prop
  | none, _ => True
  | some _, none => False
  | some x, some y => x ≤ y

instance : DecidableRel nullsFirstLE := fun a b =>
  match a, b with
  | none, _ => isTrue trivial
  | some _, none => isFalse (fun h => h)
  | some x, some y => inferInstanceAs (Decidable (x ≤ y))

/-- The row order of get_words_for_review: mastery_level ascending, ties
broken by last_review ascending with NULL first. -/
def reviewLE (a b : UserWord) : Prop :=
  a.mastery_level < b.mastery_level ∨
    (a.mastery_level = b.mastery_level ∧ nullsFirstLE a.last_review b.last_review)

instance : DecidableRel reviewLE := fun a b => by
  unfold reviewLE
  infer_instance

/-- The rows selected by get_words_for_review (lines 178-189): filter the
user rows by the due condition, sort them by the ORDER BY order, keep the
first limit rows. -/
def reviewQuery (uid : String) (today : ℤ) (limit : Nat) (store : List UserWord) : List UserWord :=
  (List.insertionSort reviewLE
    (store.filter (fun r => r.user_id == uid && dueForReview today r))).take limit

/-- The dict rendered for each selected row (lines 191-200). -/
structure ReviewItem where
  word_id : String
  mastery_level : ℚ
  last_review : Option ℤ
  seen_count : ℤ
  repetitions : ℤ
  deriving DecidableEq

/-- Projection of a row to its review dict. -/
def reviewItemOf (r : UserWord) : ReviewItem :=
  { word_id := r.word_id
    mastery_level := r.mastery_level
    last_review := r.last_review
    seen_count := r.seen_count
    repetitions := r.repetitions }

/-- ProgressService.get_words_for_review (lines 161-203). -/
def get_words_for_review (uid : String) (today : ℤ) (limit : Nat)
    (store : List UserWord) : List ReviewItem :=
  (reviewQuery uid today limit store).map reviewItemOf

/-- A raw entry of the words list of a trial payload: an arbitrary dict,
each field none when the key is absent. last_review and next_review hold
the result of ProgressService._parse_date applied to the raw value (none
when the key is absent or the value unparseable). -/
structure TrialWordEntry where
  word_id : Option String
  mastery_level : Option ℚ
  repetitions : Option ℤ
  ease_factor : Option ℚ
  last_review : Option ℤ
  next_review : Option ℤ
  seen_count : Option ℤ
  correct_count : Option ℤ
  deriving DecidableEq

/-- The UserWord row built from one raw trial entry by
ProgressService._import_word_progress (lines 63-81): word_id defaults to
the empty string, mastery_level to 0.0, repetitions to 0, ease_factor to
2.5, seen_count and correct_count to 0; updated_at is filled by the column
server default at insert time. -/
def trialWordRecord (uid : String) (now : ℤ) (e : TrialWordEntry) : UserWord :=
  { user_id := uid
    word_id := e.word_id.getD ""
    mastery_level := e.mastery_level.getD 0
    repetitions := e.repetitions.getD 0
    ease_factor := e.ease_factor.getD (5/2)
    last_review := e.last_review
    next_review := e.next_review
    seen_count := e.seen_count.getD 0
    correct_count := e.correct_count.getD 0
    updated_at := now }

/-- ProgressService._import_word_progress (lines 54-85): every entry of the
words list becomes a new row, unconditionally. -/
def trial_import_word_progress (uid : String) (now : ℤ)
    (es : List TrialWordEntry) : List UserWord :=
  es.map (trialWordRecord uid now)

/-- A raw entry of the sessions list of a trial payload; started_at and
completed_at hold the result of ProgressService._parse_datetime. -/
structure SessionEntry where
  practice_type : Option String
  words_count : Option ℤ
  correct_count : Option ℤ
  accuracy : Option ℚ
  duration_seconds : Option ℤ
  started_at : Option ℤ
  completed_at : Option ℤ
  deriving DecidableEq

/-- A row of the sessions table (class Session in
src/backend/app/models/database.py) as built by the trial import. -/
structure SessionRecord where
  user_id : String
  practice_type : String
  words_count : ℤ
  correct_count : ℤ
  accuracy : ℚ
  duration_seconds : ℤ
  started_at : Option ℤ
  completed_at : Option ℤ
  deriving DecidableEq

/-- The session row built from one raw session entry
(ProgressService._import_session_summaries lines 100-109). -/
def sessionRecordOf (uid : String) (e : SessionEntry) : SessionRecord :=
  { user_id := uid
    practice_type := e.practice_type.getD "flashcard"
    words_count := e.words_count.getD 0
    correct_count := e.correct_count.getD 0
    accuracy := e.accuracy.getD 0
    duration_seconds := e.duration_seconds.getD 0
    started_at := e.started_at
    completed_at := e.completed_at }

/-- The cap of _import_session_summaries line 95:
sessions_data[-5:] if len(sessions_data) > 5 else sessions_data. -/
def recentSessions (xs : List SessionEntry) : List SessionEntry :=
  if xs.length > 5 then xs.drop (xs.length - 5) else xs

/-- ProgressService._import_session_summaries (lines 87-117). -/
def trial_import_session_summaries (uid : String)
    (xs : List SessionEntry) : List SessionRecord :=
  (recentSessions xs).map (sessionRecordOf uid)

/-- The order of the ORDER BY clause is total. -/
instance : IsTotal UserWord reviewLE where
  total := by
    intro a b
    rcases lt_trichotomy a.mastery_level b.mastery_level with h | h | h
    · exact Or.inl (Or.inl h)
    · rcases ha : a.last_review with _ | x
      · refine Or.inl (Or.inr ⟨h, ?_⟩)
        rw [ha]
        trivial
      · rcases hb : b.last_review with _ | y
        · refine Or.inr (Or.inr ⟨h.symm, ?_⟩)
          rw [hb]
          trivial
        · rcases le_total x y with hxy | hxy
          · refine Or.inl (Or.inr ⟨h, ?_⟩)
            rw [ha, hb]
            exact hxy
          · refine Or.inr (Or.inr ⟨h.symm, ?_⟩)
            rw [ha, hb]
            exact hxy
    · exact Or.inr (Or.inl h)

/-- The order of the ORDER BY clause is transitive. -/
instance : IsTrans UserWord reviewLE where
  trans := by
    intro a b c hab hbc
    rcases hab with h1 | ⟨h1, h1b⟩
    · rcases hbc with h2 | ⟨h2, _⟩
      · exact Or.inl (lt_trans h1 h2)
      · exact Or.inl (h2 ▸ h1)
    · rcases hbc with h2 | ⟨h2, h2b⟩
      · exact Or.inl (h1 ▸ h2)
      · refine Or.inr ⟨h1.trans h2, ?_⟩
        revert h1b h2b
        rcases a.last_review with _ | x <;> rcases b.last_review with _ | y <;>
          rcases c.last_review with _ | z <;> intro h1b h2b <;>
          first
            | trivial
            | exact h1b.elim
            | exact h2b.elim
            | exact le_trans h1b h2b

/-- The range invariant claimed for the bounded decimal columns of a
user_words row. -/
def boundsOK (r : UserWord) : Prop :=
  0 ≤ r.mastery_level ∧ r.mastery_level ≤ 5 ∧
  (13 : ℚ)/10 ≤ r.ease_factor ∧ r.ease_factor ≤ 5

/-! Concrete instances used by counterexamples and witnesses. -/

/-- A stored row for word w of user u with mastery 1 used by C1 and C6. -/
def cexRow : UserWord :=
  { user_id := "u", word_id := "w", mastery_level := 1, repetitions := 0,
    ease_factor := 2, last_review := none, next_review := none,
    seen_count := 0, correct_count := 0, updated_at := 0 }

/-- A client entry for word w carrying mastery 1 (matching cexRow). -/
def cw1 : WordProgressBase :=
  { word_id := "w", mastery_level := 1, repetitions := 0, ease_factor := 2,
    last_review := none, next_review := none, seen_count := 0, correct_count := 0 }

/-- A client entry for word w carrying mastery 2 (differing from cexRow). -/
def cw2 : WordProgressBase := { cw1 with mastery_level := 2 }

/-- Loop state holding only cexRow, used by the C1 witness. -/
def c1state : SyncLoopState :=
  { store := [cexRow], pending := [], conflicts := [], updated_words := 0 }

/-- Stats of an account with max_streak 5, used by the C3 counterexample. -/
def c3stats : UserStats :=
  { total_words_learned := 0, current_streak := 0, max_streak := 5,
    last_active_date := none, updated_at := 0 }

/-- A stats payload carrying max_streak 3, used by the C3 counterexample. -/
def c3payload : StatsPayload :=
  { total_words_learned := none, current_streak := none, max_streak := some 3,
    last_active_date := none }

/-- Stats of a fresh account (all zero), used by C4, C6 and C9. -/
def freshStats : UserStats :=
  { total_words_learned := 0, current_streak := 0, max_streak := 0,
    last_active_date := none, updated_at := 0 }

/-- A stats payload supplying current_streak 10 and no max_streak, used by
the C4 counterexample. -/
def c4payload : StatsPayload :=
  { total_words_learned := none, current_streak := some 10, max_streak := none,
    last_active_date := none }

/-- A well-formed stats payload (max_streak 3 covering current_streak 2),
used by the C4 witness. -/
def c4wPayload : StatsPayload :=
  { total_words_learned := none, current_streak := some 2, max_streak := some 3,
    last_active_date := none }

/-- Due row A of the worked tie-break example: mastery 1.0, reviewed
2024-01-01. -/
def recA5 : UserWord :=
  { user_id := "u", word_id := "A", mastery_level := 1, repetitions := 0,
    ease_factor := 2, last_review := some 20240101, next_review := none,
    seen_count := 0, correct_count := 0, updated_at := 0 }

/-- Due row B of the worked tie-break example: mastery 1.0, reviewed
2024-02-01. -/
def recB5 : UserWord := { recA5 with word_id := "B", last_review := some 20240201 }

/-- The duplicate-word batch of the C6 counterexample: two entries for the
same word_id with different mastery values, no stats. -/
def c6data : SyncData := { words := [cw1, cw2], stats := none }

/-- A batch with a single word entry and no stats, used by the C6 witness. -/
def c6wData : SyncData := { words := [cw1], stats := none }

/-- A raw session entry whose words_count is i, used by the C7 examples. -/
def c7e (i : ℤ) : SessionEntry :=
  { practice_type := none, words_count := some i, correct_count := none,
    accuracy := none, duration_seconds := none, started_at := none,
    completed_at := none }

/-- A raw trial words entry carrying mastery_level 9 (out of range), used by
the C8 counterexample. -/
def c8entry : TrialWordEntry :=
  { word_id := some "w", mastery_level := some 9, repetitions := none,
    ease_factor := none, last_review := none, next_review := none,
    seen_count := none, correct_count := none }

/-- A raw trial words entry with every key absent, used by C8 and C10. -/
def emptyTrialEntry : TrialWordEntry :=
  { word_id := none, mastery_level := none, repetitions := none,
    ease_factor := none, last_review := none, next_review := none,
    seen_count := none, correct_count := none }

/-- A stats payload whose last_active_date is the client-supplied date
2020-01-01, used by the C9 counterexample. -/
def c9payload : StatsPayload :=
  { total_words_learned := none, current_streak := none, max_streak := none,
    last_active_date := some (some 20200101) }

/-! Helper lemmas about key lookup and in-place overwrite. -/

theorem matchKey_iff (uid wid : String) (x : UserWord) :
    matchKey uid wid x = true ↔ x.user_id = uid ∧ x.word_id = wid := by
  simp [matchKey]

@[simp] theorem recordOf_user_id (dec : ℚ → ℚ) (uid : String) (now : ℤ) (w : WordProgressBase) :
    (recordOf dec uid now w).user_id = uid := rfl

@[simp] theorem recordOf_word_id (dec : ℚ → ℚ) (uid : String) (now : ℤ) (w : WordProgressBase) :
    (recordOf dec uid now w).word_id = w.word_id := rfl

@[simp] theorem recordOf_mastery (dec : ℚ → ℚ) (uid : String) (now : ℤ) (w : WordProgressBase) :
    (recordOf dec uid now w).mastery_level = dec w.mastery_level := rfl

@[simp] theorem recordOf_repetitions (dec : ℚ → ℚ) (uid : String) (now : ℤ) (w : WordProgressBase) :
    (recordOf dec uid now w).repetitions = w.repetitions := rfl

theorem notin_map_cons {wid : String} {w0 : WordProgressBase} {rest : List WordProgressBase}
    (h : wid ∉ (w0 :: rest).map WordProgressBase.word_id) :
    wid ≠ w0.word_id ∧ wid ∉ rest.map WordProgressBase.word_id := by
  rw [List.map_cons, List.mem_cons, not_or] at h
  exact h

theorem wkey_recordOf (dec : ℚ → ℚ) (uid : String) (now : ℤ) (w : WordProgressBase) :
    wkey (recordOf dec uid now w) = (uid, w.word_id) := rfl

theorem findWord_eq_none_iff (store : List UserWord) (uid wid : String) :
    findWord store uid wid = none ↔ (uid, wid) ∉ store.map wkey := by
  unfold findWord
  rw [List.find?_eq_none]
  constructor
  · intro h hmem
    obtain ⟨r, hr, hkey⟩ := List.mem_map.mp hmem
    have h1 : r.user_id = uid := congrArg Prod.fst hkey
    have h2 : r.word_id = wid := congrArg Prod.snd hkey
    exact h r hr ((matchKey_iff uid wid r).mpr ⟨h1, h2⟩)
  · intro h r hr hm
    obtain ⟨h1, h2⟩ := (matchKey_iff uid wid r).mp hm
    exact h (List.mem_map.mpr ⟨r, hr, by simp [wkey, h1, h2]⟩)

theorem findWord_key (store : List UserWord) (uid wid : String) (r : UserWord)
    (h : findWord store uid wid = some r) : r.user_id = uid ∧ r.word_id = wid := by
  have := List.find?_some h
  exact (matchKey_iff uid wid r).mp this

theorem findWord_setWord_same (store : List UserWord) (uid wid : String) (r ex : UserWord)
    (h1 : r.user_id = uid) (h2 : r.word_id = wid)
    (hfind : findWord store uid wid = some ex) :
    findWord (setWord store uid wid r) uid wid = some r := by
  induction store with
  | nil => simp [findWord] at hfind
  | cons a l ih =>
    by_cases ha : matchKey uid wid a = true
    · have hr : matchKey uid wid r = true := (matchKey_iff uid wid r).mpr ⟨h1, h2⟩
      simp [findWord, setWord, ha, hr]
    · have ha2 : matchKey uid wid a = false := by simpa using ha
      have hfind2 : findWord l uid wid = some ex := by
        simpa [findWord, List.find?_cons, ha2] using hfind
      simpa [findWord, setWord, ha2] using ih hfind2

theorem findWord_setWord_other (store : List UserWord) (uid wid wid2 : String) (r : UserWord)
    (hne : wid2 ≠ wid) (h2 : r.word_id = wid) :
    findWord (setWord store uid wid r) uid wid2 = findWord store uid wid2 := by
  induction store with
  | nil => rfl
  | cons a l ih =>
    by_cases ha : matchKey uid wid a = true
    · obtain ⟨ha1, ha2⟩ := (matchKey_iff uid wid a).mp ha
      have hrm : matchKey uid wid2 r = false := by
        simp [matchKey, h2, hne.symm]
      have ham : matchKey uid wid2 a = false := by
        simp [matchKey, ha2, hne.symm]
      simp [findWord, setWord, List.find?_cons, ha, hrm, ham] at ih ⊢
      exact ih
    · have ha2 : matchKey uid wid a = false := by simpa using ha
      by_cases hb : matchKey uid wid2 a = true
      · simp [findWord, setWord, List.find?_cons, ha2, hb]
      · have hb2 : matchKey uid wid2 a = false := by simpa using hb
        simp [findWord, setWord, List.find?_cons, ha2, hb2] at ih ⊢
        exact ih

theorem setWord_map_wkey (store : List UserWord) (uid wid : String) (r : UserWord)
    (h1 : r.user_id = uid) (h2 : r.word_id = wid) :
    (setWord store uid wid r).map wkey = store.map wkey := by
  unfold setWord
  rw [List.map_map]
  apply List.map_congr_left
  intro x _
  by_cases hx : matchKey uid wid x = true
  · obtain ⟨hx1, hx2⟩ := (matchKey_iff uid wid x).mp hx
    simp [Function.comp, hx, wkey, h1, h2, hx1, hx2]
  · simp [Function.comp, hx]

theorem setWord_eq_of_none (store : List UserWord) (uid wid : String) (r : UserWord)
    (h : findWord store uid wid = none) : setWord store uid wid r = store := by
  unfold setWord
  have hall := List.find?_eq_none.mp h
  nth_rewrite 2 [← List.map_id store]
  apply List.map_congr_left
  intro x hx
  simp [hall x hx]

theorem setWord_eq_self (store : List UserWord) (uid wid : String) (r : UserWord)
    (hnd : (store.map wkey).Nodup) (hfind : findWord store uid wid = some r) :
    setWord store uid wid r = store := by
  induction store with
  | nil => rfl
  | cons a l ih =>
    by_cases ha : matchKey uid wid a = true
    · obtain ⟨ha1, ha2⟩ := (matchKey_iff uid wid a).mp ha
      have har : a = r := by
        have : some a = some r := by
          simpa [findWord, List.find?_cons, ha] using hfind
        exact Option.some.inj this
      have hnone : findWord l uid wid = none := by
        rw [findWord_eq_none_iff]
        intro hmem
        have : wkey a ∈ l.map wkey := by
          simpa [wkey, ha1, ha2] using hmem
        exact (List.nodup_cons.mp hnd).1 this
      have hl : setWord l uid wid r = l := setWord_eq_of_none l uid wid r hnone
      have hcons : setWord (a :: l) uid wid r = r :: setWord l uid wid r := by
        simp [setWord, ha]
      rw [hcons, hl, ← har]
    · have ha2 : matchKey uid wid a = false := by simpa using ha
      have hfind2 : findWord l uid wid = some r := by
        simpa [findWord, List.find?_cons, ha2] using hfind
      have hnd2 : (l.map wkey).Nodup := (List.nodup_cons.mp hnd).2
      simp [setWord, ha2] at ih ⊢
      exact ih hnd2 hfind2

theorem findWord_append (l1 l2 : List UserWord) (uid wid : String) :
    findWord (l1 ++ l2) uid wid = (findWord l1 uid wid).or (findWord l2 uid wid) := by
  unfold findWord
  exact List.find?_append

theorem findWord_eq_none_of_all (l : List UserWord) (uid wid : String)
    (h : ∀ p ∈ l, p.word_id ≠ wid) : findWord l uid wid = none := by
  unfold findWord
  rw [List.find?_eq_none]
  intro x hx hm
  exact h x hx ((matchKey_iff uid wid x).mp hm).2

/-! Helper lemmas about the word loop of sync_user_progress. -/

theorem syncStep_skip (dec : ℚ → ℚ) (fails : WordProgressBase → Bool) (uid : String) (now : ℤ)
    (s : SyncLoopState) (w : WordProgressBase) (h : fails w = true) :
    syncStep dec fails uid now s w = s := by
  simp [syncStep, h]

theorem syncStep_noFail_eq (dec : ℚ → ℚ) (fails : WordProgressBase → Bool) (uid : String) (now : ℤ)
    (s : SyncLoopState) (w : WordProgressBase) (h : fails w = false) :
    syncStep dec fails uid now s w = syncStep dec noFail uid now s w := by
  simp [syncStep, h, noFail]

theorem foldl_syncStep_filter (dec : ℚ → ℚ) (fails : WordProgressBase → Bool) (uid : String) (now : ℤ) :
    ∀ (ws : List WordProgressBase) (s : SyncLoopState),
      ws.foldl (syncStep dec fails uid now) s =
        (ws.filter (fun w => !(fails w))).foldl (syncStep dec noFail uid now) s := by
  intro ws
  induction ws with
  | nil => intro s; rfl
  | cons w rest ih =>
    intro s
    by_cases hw : fails w = true
    · rw [List.foldl_cons, syncStep_skip dec fails uid now s w hw]
      have : (List.filter (fun w => !(fails w)) (w :: rest)) =
          List.filter (fun w => !(fails w)) rest := by
        simp [List.filter, hw]
      rw [this]
      exact ih s
    · have hw2 : fails w = false := by simpa using hw
      rw [List.foldl_cons, syncStep_noFail_eq dec fails uid now s w hw2]
      have : (List.filter (fun w => !(fails w)) (w :: rest)) =
          w :: List.filter (fun w => !(fails w)) rest := by
        simp [List.filter, hw2]
      rw [this, List.foldl_cons]
      exact ih (syncStep dec noFail uid now s w)

theorem syncStep_updated_le (dec : ℚ → ℚ) (fails : WordProgressBase → Bool) (uid : String) (now : ℤ)
    (s : SyncLoopState) (w : WordProgressBase) :
    (syncStep dec fails uid now s w).updated_words ≤ s.updated_words + 1 := by
  unfold syncStep
  by_cases hw : fails w = true
  · simp [hw]
  · have hw2 : fails w = false := by simpa using hw
    cases hfind : findWord s.store uid w.word_id <;> simp [hw2, hfind]

theorem foldl_syncStep_updated_le (dec : ℚ → ℚ) (fails : WordProgressBase → Bool) (uid : String) (now : ℤ) :
    ∀ (ws : List WordProgressBase) (s : SyncLoopState),
      (ws.foldl (syncStep dec fails uid now) s).updated_words ≤ s.updated_words + ws.length := by
  intro ws
  induction ws with
  | nil => intro s; simp
  | cons w rest ih =>
    intro s
    rw [List.foldl_cons]
    calc (rest.foldl (syncStep dec fails uid now) (syncStep dec fails uid now s w)).updated_words
        ≤ (syncStep dec fails uid now s w).updated_words + rest.length := ih _
      _ ≤ s.updated_words + 1 + rest.length := by
          have := syncStep_updated_le dec fails uid now s w
          omega
      _ = s.updated_words + (w :: rest).length := by simp [List.length_cons]; omega

theorem foldl_syncStep_conflicts_of_matching (uid : String) (now : ℤ) :
    ∀ (ws : List WordProgressBase) (s : SyncLoopState),
      (∀ w ∈ ws, ∃ ex, findWord s.store uid w.word_id = some ex ∧
        ex.mastery_level = w.mastery_level ∧ ex.repetitions = w.repetitions) →
      (ws.foldl (syncStep decId noFail uid now) s).conflicts = s.conflicts := by
  intro ws
  induction ws with
  | nil => intro s _; rfl
  | cons w rest ih =>
    intro s hmatch
    obtain ⟨ex, hex, hm, hr⟩ := hmatch w (List.mem_cons_self w rest)
    have hstep : syncStep decId noFail uid now s w =
        { store := setWord s.store uid w.word_id (recordOf decId uid now w)
          pending := s.pending
          conflicts := s.conflicts
          updated_words := s.updated_words + 1 } := by
      simp [syncStep, noFail, hex, hm, hr]
    rw [List.foldl_cons, hstep]
    apply ih
    intro w2 hw2
    obtain ⟨ex2, hex2, hm2, hr2⟩ := hmatch w2 (List.mem_cons_of_mem w hw2)
    by_cases hid : w2.word_id = w.word_id
    · refine ⟨recordOf decId uid now w, ?_, ?_, ?_⟩
      · rw [hid]
        exact findWord_setWord_same s.store uid w.word_id (recordOf decId uid now w) ex rfl rfl hex
      · have : ex2 = ex := by
          have := hex2
          rw [hid, hex] at this
          exact (Option.some.inj this).symm
        rw [← hm2, this, hm]
        rfl
      · have : ex2 = ex := by
          have := hex2
          rw [hid, hex] at this
          exact (Option.some.inj this).symm
        rw [← hr2, this, hr]
        rfl
    · refine ⟨ex2, ?_, hm2, hr2⟩
      rw [findWord_setWord_other s.store uid w.word_id w2.word_id (recordOf decId uid now w) hid rfl]
      exact hex2

theorem foldl_syncStep_store_wkey (dec : ℚ → ℚ) (fails : WordProgressBase → Bool) (uid : String) (now : ℤ) :
    ∀ (ws : List WordProgressBase) (s : SyncLoopState),
      ((ws.foldl (syncStep dec fails uid now) s).store).map wkey = s.store.map wkey := by
  intro ws
  induction ws with
  | nil => intro s; rfl
  | cons w rest ih =>
    intro s
    rw [List.foldl_cons, ih]
    unfold syncStep
    by_cases hw : fails w = true
    · simp [hw]
    · have hw2 : fails w = false := by simpa using hw
      cases hfind : findWord s.store uid w.word_id with
      | some ex =>
        simp only [hw2, Bool.false_eq_true, if_false, hfind]
        exact setWord_map_wkey s.store uid w.word_id (recordOf dec uid now w) rfl rfl
      | none => simp [hw2, hfind]

theorem syncStep_update_eq (dec : ℚ → ℚ) (uid : String) (now : ℤ) (s : SyncLoopState)
    (w : WordProgressBase) (ex : UserWord)
    (hfind : findWord s.store uid w.word_id = some ex) :
    syncStep dec noFail uid now s w =
      { store := setWord s.store uid w.word_id (recordOf dec uid now w)
        pending := s.pending
        conflicts :=
          if ex.mastery_level ≠ w.mastery_level ∨ ex.repetitions ≠ w.repetitions then
            s.conflicts ++ [{ word_id := w.word_id
                              server_mastery := ex.mastery_level
                              client_mastery := w.mastery_level
                              resolution := "client_wins" }]
          else s.conflicts
        updated_words := s.updated_words + 1 } := by
  simp [syncStep, noFail, hfind]

theorem syncStep_create_eq (dec : ℚ → ℚ) (uid : String) (now : ℤ) (s : SyncLoopState)
    (w : WordProgressBase)
    (hfind : findWord s.store uid w.word_id = none) :
    syncStep dec noFail uid now s w =
      { store := s.store
        pending := s.pending ++ [recordOf dec uid now w]
        conflicts := s.conflicts
        updated_words := s.updated_words + 1 } := by
  simp [syncStep, noFail, hfind]

theorem syncStep_preserve_find (dec : ℚ → ℚ) (uid : String) (now : ℤ) (s : SyncLoopState)
    (w : WordProgressBase) (wid : String) (r : UserWord)
    (hne : wid ≠ w.word_id)
    (h : findWord (s.store ++ s.pending) uid wid = some r) :
    findWord ((syncStep dec noFail uid now s w).store ++
      (syncStep dec noFail uid now s w).pending) uid wid = some r := by
  cases hfind : findWord s.store uid w.word_id with
  | some ex =>
    rw [syncStep_update_eq dec uid now s w ex hfind]
    rw [findWord_append] at h
    rw [findWord_append,
      findWord_setWord_other s.store uid w.word_id wid (recordOf dec uid now w) hne rfl]
    exact h
  | none =>
    rw [syncStep_create_eq dec uid now s w hfind]
    rw [findWord_append] at h
    rw [findWord_append, findWord_append]
    cases hs : findWord s.store uid wid with
    | some x =>
      rw [hs] at h
      simpa [Option.or] using h
    | none =>
      rw [hs] at h
      simp only [Option.or] at h
      simp [h]

theorem foldl_syncStep_preserve_find (dec : ℚ → ℚ) (uid : String) (now : ℤ) :
    ∀ (ws : List WordProgressBase) (s : SyncLoopState) (wid : String) (r : UserWord),
      wid ∉ ws.map WordProgressBase.word_id →
      findWord (s.store ++ s.pending) uid wid = some r →
      findWord ((ws.foldl (syncStep dec noFail uid now) s).store ++
        (ws.foldl (syncStep dec noFail uid now) s).pending) uid wid = some r := by
  intro ws
  induction ws with
  | nil => intro s wid r _ h; exact h
  | cons w rest ih =>
    intro s wid r hnotin h
    have h1 : wid ≠ w.word_id ∧ wid ∉ rest.map WordProgressBase.word_id := by
      simpa [List.mem_cons, not_or] using hnotin
    rw [List.foldl_cons]
    exact ih (syncStep dec noFail uid now s w) wid r h1.2
      (syncStep_preserve_find dec uid now s w wid r h1.1 h)

theorem foldl_syncStep_find_final (dec : ℚ → ℚ) (uid : String) (now : ℤ) :
    ∀ (ws : List WordProgressBase) (s : SyncLoopState),
      (ws.map WordProgressBase.word_id).Nodup →
      (∀ p ∈ s.pending, p.word_id ∉ ws.map WordProgressBase.word_id) →
      ∀ w ∈ ws,
        findWord ((ws.foldl (syncStep dec noFail uid now) s).store ++
          (ws.foldl (syncStep dec noFail uid now) s).pending) uid w.word_id =
          some (recordOf dec uid now w) := by
  intro ws
  induction ws with
  | nil => intro s _ _ w hw; cases hw
  | cons w0 rest ih =>
    intro s hnd hpend w hw
    have hnd2 : w0.word_id ∉ rest.map WordProgressBase.word_id ∧
        (rest.map WordProgressBase.word_id).Nodup := by
      simpa [List.map_cons, List.nodup_cons] using hnd
    rw [List.foldl_cons]
    rcases List.mem_cons.mp hw with hw | hw
    · subst hw
      have hstep : findWord ((syncStep dec noFail uid now s w).store ++
          (syncStep dec noFail uid now s w).pending) uid w.word_id =
          some (recordOf dec uid now w) := by
        cases hfind : findWord s.store uid w.word_id with
        | some ex =>
          rw [syncStep_update_eq dec uid now s w ex hfind, findWord_append,
            findWord_setWord_same s.store uid w.word_id (recordOf dec uid now w) ex rfl rfl hfind]
          rfl
        | none =>
          rw [syncStep_create_eq dec uid now s w hfind, findWord_append, findWord_append, hfind]
          have hp : findWord s.pending uid w.word_id = none := by
            apply findWord_eq_none_of_all
            intro p hpmem
            exact (notin_map_cons (hpend p hpmem)).1
          have hone : findWord [recordOf dec uid now w] uid w.word_id =
              some (recordOf dec uid now w) := by
            simp [findWord, List.find?, matchKey]
          rw [hp, hone]
          rfl
      exact foldl_syncStep_preserve_find dec uid now rest (syncStep dec noFail uid now s w)
        w.word_id (recordOf dec uid now w) hnd2.1 hstep
    · apply ih (syncStep dec noFail uid now s w0) hnd2.2 _ w hw
      intro p hp
      cases hfind : findWord s.store uid w0.word_id with
      | some ex =>
        rw [syncStep_update_eq dec uid now s w0 ex hfind] at hp
        exact (notin_map_cons (hpend p hp)).2
      | none =>
        rw [syncStep_create_eq dec uid now s w0 hfind] at hp
        rcases List.mem_append.mp hp with hp | hp
        · exact (notin_map_cons (hpend p hp)).2
        · have hpw : p = recordOf dec uid now w0 := by simpa using hp
          rw [hpw]
          exact hnd2.1

theorem nodup_append_singleton {α : Type} [DecidableEq α] (l : List α) (a : α)
    (h : l.Nodup) (ha : a ∉ l) : (l ++ [a]).Nodup := by
  simp [List.nodup_append, h, ha]

theorem foldl_syncStep_commit_nodup (dec : ℚ → ℚ) (uid : String) (now : ℤ) :
    ∀ (ws : List WordProgressBase) (s : SyncLoopState),
      (ws.map WordProgressBase.word_id).Nodup →
      (∀ p ∈ s.pending, p.word_id ∉ ws.map WordProgressBase.word_id) →
      ((s.store ++ s.pending).map wkey).Nodup →
      (((ws.foldl (syncStep dec noFail uid now) s).store ++
        (ws.foldl (syncStep dec noFail uid now) s).pending).map wkey).Nodup := by
  intro ws
  induction ws with
  | nil => intro s _ _ h; exact h
  | cons w0 rest ih =>
    intro s hnd hpend hcomb
    have hnd2 : w0.word_id ∉ rest.map WordProgressBase.word_id ∧
        (rest.map WordProgressBase.word_id).Nodup := by
      simpa [List.map_cons, List.nodup_cons] using hnd
    rw [List.foldl_cons]
    cases hfind : findWord s.store uid w0.word_id with
    | some ex =>
      apply ih (syncStep dec noFail uid now s w0) hnd2.2
      · intro p hp
        rw [syncStep_update_eq dec uid now s w0 ex hfind] at hp
        exact (notin_map_cons (hpend p hp)).2
      · rw [syncStep_update_eq dec uid now s w0 ex hfind]
        have : (setWord s.store uid w0.word_id (recordOf dec uid now w0)).map wkey =
            s.store.map wkey :=
          setWord_map_wkey s.store uid w0.word_id (recordOf dec uid now w0) rfl rfl
        simpa [List.map_append, this] using hcomb
    | none =>
      apply ih (syncStep dec noFail uid now s w0) hnd2.2
      · intro p hp
        rw [syncStep_create_eq dec uid now s w0 hfind] at hp
        rcases List.mem_append.mp hp with hp | hp
        · exact (notin_map_cons (hpend p hp)).2
        · have hpw : p = recordOf dec uid now w0 := by simpa using hp
          rw [hpw]
          exact hnd2.1
      · rw [syncStep_create_eq dec uid now s w0 hfind]
        have hkey : (uid, w0.word_id) ∉ (s.store ++ s.pending).map wkey := by
          rw [List.map_append, List.mem_append, not_or]
          constructor
          · exact (findWord_eq_none_iff s.store uid w0.word_id).mp hfind
          · intro hmem
            obtain ⟨p, hpmem, hpkey⟩ := List.mem_map.mp hmem
            have hpw : p.word_id = w0.word_id := congrArg Prod.snd hpkey
            exact (notin_map_cons (hpend p hpmem)).1 hpw
        have hgoal : ((s.store ++ (s.pending ++ [recordOf dec uid now w0])).map wkey) =
            ((s.store ++ s.pending).map wkey) ++ [(uid, w0.word_id)] := by
          simp [List.map_append, wkey_recordOf]
        simp only [hgoal]
        exact nodup_append_singleton _ _ hcomb hkey

theorem foldl_syncStep_synced (dec : ℚ → ℚ) (uid : String) (now : ℤ) :
    ∀ (ws : List WordProgressBase) (s : SyncLoopState),
      (s.store.map wkey).Nodup →
      (∀ w ∈ ws, findWord s.store uid w.word_id = some (recordOf dec uid now w)) →
      (∀ w ∈ ws, dec w.mastery_level = w.mastery_level) →
      ws.foldl (syncStep dec noFail uid now) s =
        { s with updated_words := s.updated_words + ws.length } := by
  intro ws
  induction ws with
  | nil => intro s _ _ _; simp
  | cons w rest ih =>
    intro s hnd hall hdec
    have hfind := hall w (List.mem_cons_self w rest)
    have hstep : syncStep dec noFail uid now s w =
        { s with updated_words := s.updated_words + 1 } := by
      rw [syncStep_update_eq dec uid now s w (recordOf dec uid now w) hfind]
      have hset := setWord_eq_self s.store uid w.word_id (recordOf dec uid now w) hnd hfind
      simp [hset, hdec w (List.mem_cons_self w rest)]
    rw [List.foldl_cons, hstep]
    rw [ih { s with updated_words := s.updated_words + 1 } hnd
      (fun w2 hw2 => hall w2 (List.mem_cons_of_mem w hw2))
      (fun w2 hw2 => hdec w2 (List.mem_cons_of_mem w hw2))]
    have harith : s.updated_words + 1 + rest.length =
        s.updated_words + (w :: rest).length := by
      simp [List.length_cons]
      omega
    rw [harith]

theorem syncStatsUpdate_idem (today now : ℤ) (u : UserStats) (p : StatsPayload) :
    syncStatsUpdate today now (syncStatsUpdate today now u p) p =
      syncStatsUpdate today now u p := by
  obtain ⟨t, c, m, la⟩ := p
  unfold syncStatsUpdate
  cases t <;> cases c <;> cases m <;> simp [Option.getD, max_assoc]

theorem sync_user_progress_eq (dec : ℚ → ℚ) (fails : WordProgressBase → Bool) (uid : String)
    (now today : ℤ) (store : List UserWord) (userStats : UserStats) (d : SyncData) :
    sync_user_progress dec fails uid now today store userStats d =
      if (((syncWords dec fails uid now store d.words).store ++
          (syncWords dec fails uid now store d.words).pending).map wkey).Nodup then
        some { store := (syncWords dec fails uid now store d.words).store ++
                 (syncWords dec fails uid now store d.words).pending
               stats := statsAfter today now userStats d.stats
               updated_words := (syncWords dec fails uid now store d.words).updated_words
               conflicts := (syncWords dec fails uid now store d.words).conflicts
               sync_timestamp := now }
      else none := rfl

theorem syncWords_commit_nodup (dec : ℚ → ℚ) (uid : String) (now : ℤ) (store : List UserWord)
    (ws : List WordProgressBase)
    (hws : (ws.map WordProgressBase.word_id).Nodup)
    (hstore : (store.map wkey).Nodup) :
    (((syncWords dec noFail uid now store ws).store ++
      (syncWords dec noFail uid now store ws).pending).map wkey).Nodup := by
  unfold syncWords
  apply foldl_syncStep_commit_nodup dec uid now ws _ hws
  · intro p hp
    simp at hp
  · simpa using hstore

theorem syncWords_find_final (dec : ℚ → ℚ) (uid : String) (now : ℤ) (store : List UserWord)
    (ws : List WordProgressBase)
    (hws : (ws.map WordProgressBase.word_id).Nodup) :
    ∀ w ∈ ws,
      findWord ((syncWords dec noFail uid now store ws).store ++
        (syncWords dec noFail uid now store ws).pending) uid w.word_id =
        some (recordOf dec uid now w) := by
  unfold syncWords
  apply foldl_syncStep_find_final dec uid now ws _ hws
  intro p hp
  simp at hp

theorem syncWords_synced (dec : ℚ → ℚ) (uid : String) (now : ℤ) (store : List UserWord)
    (ws : List WordProgressBase)
    (hnd : (store.map wkey).Nodup)
    (hall : ∀ w ∈ ws, findWord store uid w.word_id = some (recordOf dec uid now w))
    (hdec : ∀ w ∈ ws, dec w.mastery_level = w.mastery_level) :
    syncWords dec noFail uid now store ws =
      { store := store, pending := [], conflicts := [], updated_words := ws.length } := by
  unfold syncWords
  have := foldl_syncStep_synced dec uid now ws
    { store := store, pending := [], conflicts := [], updated_words := 0 } hnd hall hdec
  simpa using this

/-! The claims. -/

/-- C1: for a sync batch entry whose (user_id, word_id) record exists, a
SyncConflict resolved client_wins is emitted exactly when the stored
mastery_level or repetitions differs from the incoming value, and a batch in
which every entry matches the stored mastery_level and repetitions produces
an empty conflict list. -/
theorem C1_conflict_iff (uid : String) (now : ℤ) :
    (∀ (s : SyncLoopState) (w : WordProgressBase) (ex : UserWord),
      findWord s.store uid w.word_id = some ex →
      (syncStep decId noFail uid now s w).conflicts =
        (if ex.mastery_level ≠ w.mastery_level ∨ ex.repetitions ≠ w.repetitions then
          s.conflicts ++ [{ word_id := w.word_id
                            server_mastery := ex.mastery_level
                            client_mastery := w.mastery_level
                            resolution := "client_wins" }]
        else s.conflicts)) ∧
    (∀ (store : List UserWord) (ws : List WordProgressBase),
      (∀ w ∈ ws, ∃ ex, findWord store uid w.word_id = some ex ∧
        ex.mastery_level = w.mastery_level ∧ ex.repetitions = w.repetitions) →
      (syncWords decId noFail uid now store ws).conflicts = []) := by
  constructor
  · intro s w ex hfind
    rw [syncStep_update_eq decId uid now s w ex hfind]
  · intro store ws h
    unfold syncWords
    exact foldl_syncStep_conflicts_of_matching uid now ws _ h

/-- Witness for C1: with stored mastery 1 and incoming mastery 2 the loop
emits exactly one client_wins conflict, and a one-entry batch matching the
stored record emits none. -/
theorem C1_conflict_iff_witness :
    (syncStep decId noFail "u" 0 c1state cw2).conflicts =
      (if cexRow.mastery_level ≠ cw2.mastery_level ∨
          cexRow.repetitions ≠ cw2.repetitions then
        c1state.conflicts ++ [{ word_id := cw2.word_id
                                server_mastery := cexRow.mastery_level
                                client_mastery := cw2.mastery_level
                                resolution := "client_wins" }]
      else c1state.conflicts) ∧
    (syncWords decId noFail "u" 0 [cexRow] [cw1]).conflicts = [] := by
  constructor
  · exact (C1_conflict_iff "u" 0).1 c1state cw2 cexRow (by decide)
  · apply (C1_conflict_iff "u" 0).2 [cexRow] [cw1]
    intro w hw
    rw [List.mem_singleton] at hw
    subst hw
    exact ⟨cexRow, by decide, by decide, by decide⟩

/-- C2: the sync word loop is fail-soft per entry: a run with raising
entries equals the no-failure run on the non-raising subsequence, so a
skipped entry contributes neither to updated_words nor to the conflict
list, and updated_words never exceeds the number of input entries. -/
theorem C2_fail_soft (dec : ℚ → ℚ) (fails : WordProgressBase → Bool) (uid : String) (now : ℤ)
    (store : List UserWord) (ws : List WordProgressBase) :
    syncWords dec fails uid now store ws =
      syncWords dec noFail uid now store (ws.filter (fun w => !(fails w))) ∧
    (syncWords dec fails uid now store ws).updated_words ≤ ws.length := by
  constructor
  · unfold syncWords
    exact foldl_syncStep_filter dec fails uid now ws _
  · unfold syncWords
    have := foldl_syncStep_updated_le dec fails uid now ws
      { store := store, pending := [], conflicts := [], updated_words := 0 }
    simpa using this

/-- Counterexample to C3 as stated: the trial-import stats step
(_update_user_stats) overwrites max_streak instead of taking the maximum,
so an existing max_streak of 5 with incoming 3 is stored as 3, a decrease. -/
theorem C3_counterexample :
    (update_user_stats c3stats c3payload).max_streak ≠
      max c3stats.max_streak (c3payload.max_streak.getD 0) ∧
    (update_user_stats c3stats c3payload).max_streak < c3stats.max_streak := by
  decide

/-- C3 amended: the merge/sync stats update computes
max(existing, incoming-or-0) for max_streak and therefore never decreases
it; the trial-import stats step instead overwrites max_streak with
incoming-or-0. -/
theorem C3_max_streak_amended (today now : ℤ) (u : UserStats) (p : StatsPayload) :
    (syncStatsUpdate today now u p).max_streak =
      max u.max_streak (p.max_streak.getD 0) ∧
    u.max_streak ≤ (syncStatsUpdate today now u p).max_streak ∧
    (update_user_stats u p).max_streak = p.max_streak.getD 0 := by
  refine ⟨rfl, ?_, rfl⟩
  exact le_max_left _ _

/-- Counterexample to C4 as stated: a payload supplying current_streak 10
without max_streak leaves max_streak at 0 on both stats paths, so the
claimed invariant max_streak ge current_streak fails on a fresh account. -/
theorem C4_counterexample :
    ¬ ((syncStatsUpdate 20261012 0 freshStats c4payload).current_streak ≤
        (syncStatsUpdate 20261012 0 freshStats c4payload).max_streak) ∧
    ¬ ((update_user_stats freshStats c4payload).current_streak ≤
        (update_user_stats freshStats c4payload).max_streak) := by
  decide

/-- C4 amended: the invariant max_streak ge current_streak is preserved by
both stats paths provided the incoming payload is well formed: its
current_streak-or-0 does not exceed its max_streak-or-0; nothing in the
code enforces this for arbitrary payloads. -/
theorem C4_invariant_amended (today now : ℤ) (u : UserStats) (p : StatsPayload)
    (hu : u.current_streak ≤ u.max_streak)
    (hp1 : p.current_streak.getD 0 ≤ p.max_streak.getD 0) :
    (syncStatsUpdate today now u p).current_streak ≤
      (syncStatsUpdate today now u p).max_streak ∧
    (update_user_stats u p).current_streak ≤
      (update_user_stats u p).max_streak := by
  constructor
  · unfold syncStatsUpdate
    cases hc : p.current_streak with
    | none =>
      simp only [Option.getD]
      exact le_trans hu (le_max_left _ _)
    | some c =>
      simp only [Option.getD]
      have hcc : c ≤ p.max_streak.getD 0 := by
        rw [hc] at hp1
        simpa using hp1
      exact le_trans hcc (le_max_right _ _)
  · unfold update_user_stats
    simpa using hp1

/-- Witness for C4 amended: fresh account, payload current_streak 2 and
max_streak 3. -/
theorem C4_invariant_amended_witness :
    (syncStatsUpdate 1 2 freshStats c4wPayload).current_streak ≤
      (syncStatsUpdate 1 2 freshStats c4wPayload).max_streak ∧
    (update_user_stats freshStats c4wPayload).current_streak ≤
      (update_user_stats freshStats c4wPayload).max_streak :=
  C4_invariant_amended 1 2 freshStats c4wPayload (by decide) (by decide)

theorem statsAfter_idem (today now : ℤ) (u : UserStats) (o : Option StatsPayload) :
    statsAfter today now (statsAfter today now u o) o = statsAfter today now u o := by
  cases o with
  | none => rfl
  | some p => exact syncStatsUpdate_idem today now u p

theorem sync_user_progress_of_syncWords (dec : ℚ → ℚ) (fails : WordProgressBase → Bool)
    (uid : String) (now today : ℤ) (store : List UserWord) (userStats : UserStats)
    (d : SyncData) (S : SyncLoopState)
    (hS : syncWords dec fails uid now store d.words = S)
    (hnd : ((S.store ++ S.pending).map wkey).Nodup) :
    sync_user_progress dec fails uid now today store userStats d =
      some { store := S.store ++ S.pending
             stats := statsAfter today now userStats d.stats
             updated_words := S.updated_words
             conflicts := S.conflicts
             sync_timestamp := now } := by
  rw [sync_user_progress_eq, hS, if_pos hnd]

/-- C5: the review query returns at most limit rows; every returned row has
mastery_level below 4 and a next_review that is absent or not after the
current date; the rows are ordered by mastery_level ascending with ties
broken by last_review ascending, an absent last_review sorting first; and
on the worked example A (mastery 1.0, last_review 2024-01-01) precedes
B (mastery 1.0, last_review 2024-02-01). -/
theorem C5_review_selector (uid : String) (today : ℤ) (limit : Nat)
    (store : List UserWord) :
    (get_words_for_review uid today limit store).length ≤ limit ∧
    (∀ r ∈ reviewQuery uid today limit store,
      r.mastery_level < 4 ∧
        (r.next_review = none ∨ ∃ d, r.next_review = some d ∧ d ≤ today)) ∧
    List.Sorted reviewLE (reviewQuery uid today limit store) ∧
    reviewQuery "u" 20240601 20 [recB5, recA5] = [recA5, recB5] ∧
    get_words_for_review "u" 20240601 20 [recB5, recA5] =
      [reviewItemOf recA5, reviewItemOf recB5] := by
  refine ⟨?_, ?_, ?_, by decide, by decide⟩
  · unfold get_words_for_review reviewQuery
    rw [List.length_map, List.length_take]
    exact min_le_left _ _
  · intro r hr
    unfold reviewQuery at hr
    have hr2 : r ∈ List.insertionSort reviewLE
        (store.filter (fun x => x.user_id == uid && dueForReview today x)) :=
      List.take_subset _ _ hr
    have hr3 : r ∈ store.filter (fun x => x.user_id == uid && dueForReview today x) :=
      (List.perm_insertionSort reviewLE _).mem_iff.mp hr2
    have hr4 := (List.mem_filter.mp hr3).2
    have hdue : dueForReview today r = true := by
      simp only [Bool.and_eq_true] at hr4
      exact hr4.2
    unfold dueForReview at hdue
    simp only [Bool.and_eq_true] at hdue
    obtain ⟨hm, hd⟩ := hdue
    refine ⟨of_decide_eq_true hm, ?_⟩
    cases hn : r.next_review with
    | none => exact Or.inl rfl
    | some dd =>
      rw [hn] at hd
      simp [dueDate] at hd
      exact Or.inr ⟨dd, rfl, hd⟩
  · unfold reviewQuery
    exact List.Pairwise.sublist (List.take_sublist _ _)
      (List.sorted_insertionSort reviewLE _)

/-- Witness for C5: row A of the worked example is returned and satisfies
the due conditions. -/
theorem C5_review_selector_witness :
    recA5.mastery_level < 4 ∧
      (recA5.next_review = none ∨
        ∃ d, recA5.next_review = some d ∧ d ≤ (20240601 : ℤ)) :=
  (C5_review_selector "u" 20240601 20 [recB5, recA5]).2.1 recA5 (by decide)

/-- Counterexample to C6 as stated: a batch holding two entries for the same
word_id with different mastery values replays with a non-empty conflict
list: the first run returns one conflict, the identical second run two. -/
theorem C6_counterexample :
    ((sync_user_progress decId noFail "u" 0 0 [cexRow] freshStats c6data).bind
      (fun o => sync_user_progress decId noFail "u" 0 0 o.store o.stats c6data)).map
        SyncOutcome.conflicts =
      some [{ word_id := "w", server_mastery := 2, client_mastery := 1,
              resolution := "client_wins" },
            { word_id := "w", server_mastery := 1, client_mastery := 2,
              resolution := "client_wins" }] ∧
    ([{ word_id := "w", server_mastery := 2, client_mastery := 1,
        resolution := "client_wins" },
      { word_id := "w", server_mastery := 1, client_mastery := 2,
        resolution := "client_wins" }] : List SyncConflict) ≠ [] := by
  constructor
  · decide
  · decide

/-- C6 amended: replaying an identical no-failure merge batch whose entries
carry pairwise distinct word_ids, and whose mastery_level values the
decimal round-trip of the write path leaves unchanged, against the state
produced by the first run yields identical stored rows, identical stats and
an empty conflict list on the second run. Without the round-trip condition
the second run compares the stored decimal to the incoming float exactly
and emits a conflict (the float 0.3 is stored as 3/10); without distinct
word_ids the duplicate batch of the counterexample emits conflicts too. -/
theorem C6_idempotent_amended (dec : ℚ → ℚ) (uid : String) (now today : ℤ) (store : List UserWord)
    (stats : UserStats) (d : SyncData)
    (hstore : (store.map wkey).Nodup)
    (hws : (d.words.map WordProgressBase.word_id).Nodup)
    (hdec : ∀ w ∈ d.words, dec w.mastery_level = w.mastery_level) :
    ∃ o1 o2 : SyncOutcome,
      sync_user_progress dec noFail uid now today store stats d = some o1 ∧
      sync_user_progress dec noFail uid now today o1.store o1.stats d = some o2 ∧
      o2.store = o1.store ∧ o2.stats = o1.stats ∧ o2.conflicts = [] := by
  have hnodup1 := syncWords_commit_nodup dec uid now store d.words hws hstore
  have hrun1 := sync_user_progress_of_syncWords dec noFail uid now today store stats d
    (syncWords dec noFail uid now store d.words) rfl hnodup1
  have hfind1 := syncWords_find_final dec uid now store d.words hws
  have hsync2 := syncWords_synced dec uid now
    ((syncWords dec noFail uid now store d.words).store ++
      (syncWords dec noFail uid now store d.words).pending) d.words hnodup1 hfind1 hdec
  have hrun2 := sync_user_progress_of_syncWords dec noFail uid now today
    ((syncWords dec noFail uid now store d.words).store ++
      (syncWords dec noFail uid now store d.words).pending)
    (statsAfter today now stats d.stats) d _ hsync2 (by simpa using hnodup1)
  refine ⟨_, _, hrun1, hrun2, ?_, ?_, rfl⟩
  · simp
  · exact statsAfter_idem today now stats d.stats

/-- Witness for C6 amended: one-entry batch against an empty store, the
round-trip fixing the entry value (the integer-valued 1.0 round-trips
exactly). -/
theorem C6_idempotent_amended_witness :
    ∃ o1 o2 : SyncOutcome,
      sync_user_progress decId noFail "u" 0 0 [] freshStats c6wData = some o1 ∧
      sync_user_progress decId noFail "u" 0 0 o1.store o1.stats c6wData = some o2 ∧
      o2.store = o1.store ∧ o2.stats = o1.stats ∧ o2.conflicts = [] :=
  C6_idempotent_amended decId "u" 0 0 [] freshStats c6wData (by decide) (by decide)
    (fun _ _ => rfl)

/-- C7: the trial session import persists exactly the trailing
min(length, 5) entries of the sessions list in original input order: with 8
entries the last 5 are persisted, with 3 entries all 3 are. -/
theorem C7_recent_sessions (uid : String) (xs : List SessionEntry) :
    trial_import_session_summaries uid xs =
      (xs.drop (xs.length - 5)).map (sessionRecordOf uid) ∧
    (trial_import_session_summaries uid xs).length = min xs.length 5 ∧
    trial_import_session_summaries "u"
        [c7e 1, c7e 2, c7e 3, c7e 4, c7e 5, c7e 6, c7e 7, c7e 8] =
      [sessionRecordOf "u" (c7e 4), sessionRecordOf "u" (c7e 5),
       sessionRecordOf "u" (c7e 6), sessionRecordOf "u" (c7e 7),
       sessionRecordOf "u" (c7e 8)] ∧
    trial_import_session_summaries "u" [c7e 1, c7e 2, c7e 3] =
      [sessionRecordOf "u" (c7e 1), sessionRecordOf "u" (c7e 2),
       sessionRecordOf "u" (c7e 3)] := by
  have hdrop : recentSessions xs = xs.drop (xs.length - 5) := by
    unfold recentSessions
    by_cases h : xs.length > 5
    · simp [h]
    · have h0 : xs.length - 5 = 0 := by omega
      simp [h, h0]
  refine ⟨?_, ?_, rfl, rfl⟩
  · unfold trial_import_session_summaries
    rw [hdrop]
  · unfold trial_import_session_summaries
    rw [hdrop, List.length_map, List.length_drop]
    omega

theorem boundsOK_recordOf (uid : String) (now : ℤ) (w : WordProgressBase)
    (hv : w.validated) : boundsOK (recordOf decId uid now w) := by
  obtain ⟨h1, h2, _, h4, h5, _, _⟩ := hv
  exact ⟨h1, h2, h4, h5⟩

theorem foldl_syncStep_bounds (fails : WordProgressBase → Bool) (uid : String) (now : ℤ) :
    ∀ (ws : List WordProgressBase) (s : SyncLoopState),
      (∀ w ∈ ws, w.validated) →
      (∀ r ∈ s.store ++ s.pending, boundsOK r) →
      ∀ r ∈ (ws.foldl (syncStep decId fails uid now) s).store ++
        (ws.foldl (syncStep decId fails uid now) s).pending, boundsOK r := by
  intro ws
  induction ws with
  | nil => intro s _ h r hr; exact h r hr
  | cons w rest ih =>
    intro s hws hs
    rw [List.foldl_cons]
    apply ih
    · intro w2 hw2
      exact hws w2 (List.mem_cons_of_mem w hw2)
    · have hvw : w.validated := hws w (List.mem_cons_self w rest)
      intro r hr
      by_cases hf : fails w = true
      · rw [syncStep_skip decId fails uid now s w hf] at hr
        exact hs r hr
      · have hf2 : fails w = false := by simpa using hf
        rw [syncStep_noFail_eq decId fails uid now s w hf2] at hr
        cases hfind : findWord s.store uid w.word_id with
        | some ex =>
          rw [syncStep_update_eq decId uid now s w ex hfind] at hr
          rcases List.mem_append.mp hr with hr | hr
          · unfold setWord at hr
            obtain ⟨x, hx, hxr⟩ := List.mem_map.mp hr
            by_cases hmx : matchKey uid w.word_id x = true
            · rw [if_pos hmx] at hxr
              rw [← hxr]
              exact boundsOK_recordOf uid now w hvw
            · rw [if_neg hmx] at hxr
              rw [← hxr]
              exact hs x (List.mem_append.mpr (Or.inl hx))
          · exact hs r (List.mem_append.mpr (Or.inr hr))
        | none =>
          rw [syncStep_create_eq decId uid now s w hfind] at hr
          rcases List.mem_append.mp hr with hr | hr
          · exact hs r (List.mem_append.mpr (Or.inl hr))
          · rcases List.mem_append.mp hr with hr | hr
            · exact hs r (List.mem_append.mpr (Or.inr hr))
            · have hrw : r = recordOf decId uid now w := by simpa using hr
              rw [hrw]
              exact boundsOK_recordOf uid now w hvw

/-- Counterexample to C8 as stated: a trial words entry carrying
mastery_level 9 is stored as given, outside the claimed [0, 5] range; the
trial import applies no bound validation to its raw payload. -/
theorem C8_counterexample :
    trialWordRecord "u" 0 c8entry ∈ trial_import_word_progress "u" 0 [c8entry] ∧
    ¬ ((trialWordRecord "u" 0 c8entry).mastery_level ≤ 5) := by
  constructor
  · simp [trial_import_word_progress]
  · decide

/-- C8 amended: rows written by the merge path keep mastery_level in [0, 5]
and ease_factor in [1.3, 5], because its entries pass the WordProgressBase
validators; a row built by the trial word import keeps the bounds only when
the raw payload values are themselves in range (absent values default to
the in-range 0.0 and 2.5). -/
theorem C8_bounds_amended (fails : WordProgressBase → Bool) (uid : String) (now : ℤ)
    (store : List UserWord) (ws : List WordProgressBase) (e : TrialWordEntry)
    (hstore : ∀ r ∈ store, boundsOK r)
    (hws : ∀ w ∈ ws, w.validated)
    (hm : ∀ m, e.mastery_level = some m → 0 ≤ m ∧ m ≤ 5)
    (hq : ∀ q, e.ease_factor = some q → (13 : ℚ)/10 ≤ q ∧ q ≤ 5) :
    (∀ r ∈ (syncWords decId fails uid now store ws).store ++
      (syncWords decId fails uid now store ws).pending, boundsOK r) ∧
    boundsOK (trialWordRecord uid now e) := by
  constructor
  · unfold syncWords
    apply foldl_syncStep_bounds fails uid now ws _ hws
    intro r hr
    simp only [List.append_nil] at hr
    exact hstore r hr
  · have hm2 : 0 ≤ e.mastery_level.getD 0 ∧ e.mastery_level.getD 0 ≤ 5 := by
      cases hme : e.mastery_level with
      | none => norm_num
      | some m => simpa using hm m hme
    have hq2 : (13 : ℚ)/10 ≤ e.ease_factor.getD (5/2) ∧
        e.ease_factor.getD (5/2) ≤ 5 := by
      cases hqe : e.ease_factor with
      | none => norm_num
      | some q => simpa using hq q hqe
    exact ⟨hm2.1, hm2.2, hq2.1, hq2.2⟩

/-- Witness for C8 amended: a one-entry merge batch into an empty store and
an all-absent trial entry. -/
theorem C8_bounds_amended_witness :
    (∀ r ∈ (syncWords decId noFail "u" 0 [] [cw1]).store ++
      (syncWords decId noFail "u" 0 [] [cw1]).pending, boundsOK r) ∧
    boundsOK (trialWordRecord "u" 0 emptyTrialEntry) :=
  C8_bounds_amended noFail "u" 0 [] [cw1] emptyTrialEntry
    (by intro r hr; simp at hr)
    (by
      intro w hw
      rw [List.mem_singleton] at hw
      subst hw
      unfold WordProgressBase.validated
      norm_num [cw1])
    (by intro m h; simp [emptyTrialEntry] at h)
    (by intro q h; simp [emptyTrialEntry] at h)

/-- Counterexample to C9 as stated: the trial-path stats update
(_update_user_stats) stores the client-supplied last_active_date 2020-01-01
verbatim, not the operation date (say 2026-10-12). -/
theorem C9_counterexample :
    (update_user_stats freshStats c9payload).last_active_date = some 20200101 ∧
    (update_user_stats freshStats c9payload).last_active_date ≠ some 20261012 := by
  decide

/-- C9 amended: the merge/sync stats update stamps last_active_date with the
server current date whatever the payload holds; the trial-path stats update
instead takes last_active_date from the payload when the key is present,
keeping the stored value otherwise. -/
theorem C9_last_active_amended (today now : ℤ) (u : UserStats) (p : StatsPayload) :
    (syncStatsUpdate today now u p).last_active_date = some today ∧
    (update_user_stats u p).last_active_date =
      (match p.last_active_date with
       | some v => v
       | none => u.last_active_date) :=
  ⟨rfl, rfl⟩

/-- C10: a trial words entry lacking word_id is not skipped: the importer
builds a row whose word_id is the empty string with the other missing
fields defaulted (mastery 0.0, repetitions 0, ease 2.5, counters 0), every
entry yields a row, and two such entries collide on the (user_id, "") key. -/
theorem C10_missing_word_id (uid : String) (now : ℤ) (e e2 : TrialWordEntry)
    (es : List TrialWordEntry) (h : e.word_id = none) (h2 : e2.word_id = none) :
    (trialWordRecord uid now e).word_id = "" ∧
    wkey (trialWordRecord uid now e) = (uid, "") ∧
    wkey (trialWordRecord uid now e) = wkey (trialWordRecord uid now e2) ∧
    (trial_import_word_progress uid now es).length = es.length ∧
    trialWordRecord uid now e ∈ trial_import_word_progress uid now (es ++ [e]) ∧
    trialWordRecord uid now emptyTrialEntry =
      { user_id := uid, word_id := "", mastery_level := 0, repetitions := 0,
        ease_factor := 5/2, last_review := none, next_review := none,
        seen_count := 0, correct_count := 0, updated_at := now } := by
  refine ⟨?_, ?_, ?_, ?_, ?_, rfl⟩
  · simp [trialWordRecord, h]
  · simp [wkey, trialWordRecord, h]
  · simp [wkey, trialWordRecord, h, h2]
  · simp [trial_import_word_progress]
  · unfold trial_import_word_progress
    exact List.mem_map_of_mem _
      (List.mem_append.mpr (Or.inr (List.mem_singleton.mpr rfl)))

/-- Witness for C10: two copies of the all-absent trial entry. -/
theorem C10_missing_word_id_witness :
    (trialWordRecord "u" 0 emptyTrialEntry).word_id = "" ∧
    wkey (trialWordRecord "u" 0 emptyTrialEntry) = ("u", "") ∧
    wkey (trialWordRecord "u" 0 emptyTrialEntry) =
      wkey (trialWordRecord "u" 0 emptyTrialEntry) ∧
    (trial_import_word_progress "u" 0 [emptyTrialEntry]).length =
      [emptyTrialEntry].length ∧
    trialWordRecord "u" 0 emptyTrialEntry ∈
      trial_import_word_progress "u" 0 ([emptyTrialEntry] ++ [emptyTrialEntry]) ∧
    trialWordRecord "u" 0 emptyTrialEntry =
      { user_id := "u", word_id := "", mastery_level := 0, repetitions := 0,
        ease_factor := 5/2, last_review := none, next_review := none,
        seen_count := 0, correct_count := 0, updated_at := 0 } :=
  C10_missing_word_id "u" 0 emptyTrialEntry emptyTrialEntry [emptyTrialEntry] rfl rfl

end WordMate
